import Mathlib

/-!
A verification development for the cli-task-manager core: the task entity,
the storage/service operations, the filter/sort engine and the fuzzy-search
gating, shallowly embedded from the TypeScript sources. Dates and timestamps
are modelled as integers (JS epoch milliseconds, or day numbers scaled by
`msPerDay`); stateful service methods become explicit functions on the stored
task list.
-/

namespace TaskManager

/-- Task priorities, from `src/types/types.ts` (`Priority`: Low, Medium, High). -/
inductive Priority where
  | low
  | medium
  | high
deriving DecidableEq

/-- The persisted task record, from `src/entities/Task.ts`. `dueDate`,
`createdAt` and `updatedAt` are JS `Date` values, modelled as epoch-millisecond
integers. -/
structure Task where
  id : String
  name : String
  priority : Priority
  category : String
  dueDate : Int
  isCompleted : Bool
  createdAt : Int
  updatedAt : Int
deriving DecidableEq

/-- A sample task builder used for concrete instances in witnesses. -/
def mkTask (id name category : String) (p : Priority) (due : Int) : Task :=
  { id := id, name := name, priority := p, category := category,
    dueDate := due, isCompleted := false, createdAt := 0, updatedAt := 0 }

/-- `TaskRepository.findById` / TypeORM `findOneBy({id})`: the first stored
task whose id matches, or none. -/
def findById (id : String) (store : List Task) : Option Task :=
  store.find? (fun t => t.id == id)

/-- `TaskRepository.update` / TypeORM `save`: overwrite the row matched by id
(refreshing the `@UpdateDateColumn` field `updatedAt`), or insert when the id
is not present. -/
def save (now : Int) (t : Task) (store : List Task) : List Task :=
  if store.any (fun u => u.id == t.id) then
    store.map (fun u => if u.id == t.id then { t with updatedAt := now } else u)
  else
    store ++ [{ t with updatedAt := now }]

/-- `TaskService.removeTask` (in-memory variant) and `TaskRepository.delete`:
drop every task with the given id; report `true` exactly when the store
shrank (TypeORM: `affected > 0`), `false` otherwise — absence is a normal
boolean result, not an error. -/
def removeTask (id : String) (store : List Task) : Bool × List Task :=
  let remaining := store.filter (fun t => t.id != id)
  (decide (remaining.length ≠ store.length), remaining)

/-- `TaskService.markTaskAsComplete` (persisted variant): look the task up by
id; when found, set `isCompleted` and re-save, reporting `true`; otherwise
report `false` and leave the store alone. -/
def markTaskAsComplete (now : Int) (id : String) (store : List Task) :
    Bool × List Task :=
  match findById id store with
  | some task => (true, save now { task with isCompleted := true } store)
  | none => (false, store)

/-- A `Partial<Task>` patch: each field optionally supplied, as handed to
`TaskService.updateTask`. -/
structure TaskPatch where
  id : Option String := none
  name : Option String := none
  priority : Option Priority := none
  category : Option String := none
  dueDate : Option Int := none
  isCompleted : Option Bool := none
  createdAt : Option Int := none
  updatedAt : Option Int := none

/-- `Object.assign(task, updates)`: every field present in the patch
overwrites the corresponding field of the task; absent fields are kept. -/
def applyPatch (updates : TaskPatch) (task : Task) : Task :=
  { id := updates.id.getD task.id
    name := updates.name.getD task.name
    priority := updates.priority.getD task.priority
    category := updates.category.getD task.category
    dueDate := updates.dueDate.getD task.dueDate
    isCompleted := updates.isCompleted.getD task.isCompleted
    createdAt := updates.createdAt.getD task.createdAt
    updatedAt := updates.updatedAt.getD task.updatedAt }

/-- The patch `{priority: p}` — only the priority field supplied. -/
def priorityPatch (p : Priority) : TaskPatch := { priority := some p }

/-- `TaskService.updateTask`: find the task by id, merge the patch into it
(`Object.assign`) and re-save it (which refreshes `updatedAt`); `none` when
the id is absent. -/
def updateTask (now : Int) (id : String) (updates : TaskPatch)
    (store : List Task) : Option Task × List Task :=
  match findById id store with
  | some task =>
      let merged := applyPatch updates task
      (some { merged with updatedAt := now }, save now merged store)
  | none => (none, store)

/-- `TaskRepository.findByCategory` / TypeORM `findBy({category})`:
exact, case-sensitive match on the category column. -/
def findByCategory (category : String) (store : List Task) : List Task :=
  store.filter (fun t => t.category == category)

/-- JS `toLowerCase`, character by character (the ASCII case mapping of
`Char.toLower`), written over the underlying character list so that it
evaluates by kernel reduction. -/
def toLowerStr (s : String) : String := String.mk (s.data.map Char.toLower)

/-- `TaskService.getTasksByCategory` (in-memory variant): case-insensitive
match via `toLowerCase` on both sides. -/
def getTasksByCategory (category : String) (store : List Task) : List Task :=
  store.filter (fun t => toLowerStr t.category == toLowerStr category)

/-- The comparator of `TaskService.getTasksSortedByDueDate` (in-memory
variant): `a.dueDate - b.dueDate`, negated for descending order; an element
stays before another exactly when the comparator is non-positive. -/
def dueDateLE (ascending : Bool) (a b : Task) : Bool :=
  if ascending then decide (a.dueDate ≤ b.dueDate) else decide (b.dueDate ≤ a.dueDate)

/-- `TaskService.getTasksSortedByDueDate`: sort (a spread copy of) the task
list by due date in the requested direction; JS `Array.sort` is stable, so a
stable merge sort models it. -/
def getTasksSortedByDueDate (ascending : Bool) (store : List Task) : List Task :=
  store.mergeSort (dueDateLE ascending)

/-- `TaskService.getTasksSortedByDueDate` seen together with the stored list
it leaves behind: the source sorts `[...this.tasks]`, a spread copy, so the
stored list itself is returned unchanged. -/
def getTasksSortedByDueDateRun (ascending : Bool) (store : List Task) :
    List Task × List Task :=
  (getTasksSortedByDueDate ascending store, store)

/-- `new Set(xs)` drained to an array (`[...new Set(xs)]`): keeps the first
occurrence of each value, in insertion order. `seen` accumulates the values
already emitted. -/
def jsSetFold (seen : List String) : List String → List String
  | [] => []
  | x :: xs =>
      if x ∈ seen then jsSetFold seen xs
      else x :: jsSetFold (x :: seen) xs

/-- `TaskService.getUniqueCategories` (in-memory variant):
`[...new Set(this.tasks.map(task => task.category))]`. -/
def getUniqueCategories (store : List Task) : List String :=
  jsSetFold [] (store.map (fun t => t.category))

/-- Modelled from the spec: `findByDueDateRange(start, end)` — the storage
range primitive is called by `FilterHandler.handleFilterByDueDate` but its
implementation is not among the sources. Spec section 4.2: inclusive-start /
exclusive-end range, ascending by due date. (`stop` stands for the reserved
word `end`.) -/
def findByDueDateRange (start stop : Int) (store : List Task) : List Task :=
  (store.filter (fun t => decide (start ≤ t.dueDate) && decide (t.dueDate < stop))).mergeSort
    (fun a b => decide (a.dueDate ≤ b.dueDate))

/-- The `minMatchCharLength` Fuse option set in
`SearchHandler.initializeFuseSearch`. -/
def minMatchCharLength : Nat := 2

/-- Modelled from the spec: Fuse.js `search` (a library dependency, not part
of the repository sources). Spec section 4.4: queries shorter than the
minimum match length return the unfiltered full set; otherwise inclusion is
decided by the fuzzy matcher, kept abstract here as a parameter. -/
def fuseSearch (matcher : String → Task → Bool) (term : String)
    (tasks : List Task) : List Task :=
  if term.length < minMatchCharLength then tasks
  else tasks.filter (matcher term)

/-- `SearchHandler.filterTasks`: a falsy (empty) search term returns the task
list unchanged; otherwise the Fuse search decides. -/
def filterTasks (matcher : String → Task → Bool) (searchTerm : String)
    (tasks : List Task) : List Task :=
  if searchTerm = "" then tasks
  else fuseSearch matcher searchTerm tasks

/-- Milliseconds in a civil day, the unit of JS `Date.getTime()` arithmetic at
midnight granularity. -/
def msPerDay : Int := 86400000

/-- Gregorian leap year. -/
def isLeapYear (y : Int) : Prop :=
  (y % 4 = 0 ∧ y % 100 ≠ 0) ∨ y % 400 = 0

instance (y : Int) : Decidable (isLeapYear y) := by
  unfold isLeapYear
  infer_instance

/-- Length of month `m` (1-based) of year `y`. -/
def daysInMonth (y m : Int) : Int :=
  if m = 2 then (if isLeapYear y then 29 else 28)
  else if m = 4 ∨ m = 6 ∨ m = 9 ∨ m = 11 then 30
  else 31

/-- Days since the Unix epoch of civil date `(y, m, d)` with `m` 1-based
(the standard era-based civil-calendar conversion). -/
def daysFromCivil (y m d : Int) : Int :=
  let yAdj := if m ≤ 2 then y - 1 else y
  let era := yAdj / 400
  let yoe := yAdj - era * 400
  let mp := (m + 9) % 12
  let doy := (153 * mp + 2) / 5 + d - 1
  let doe := yoe * 365 + yoe / 4 - yoe / 100 + doy
  era * 146097 + doe - 719468

/-- The day number of the JS date `new Date(y, m0, d)` at midnight, with
`m0` 0-based and both `m0` and `d` normalized by overflow exactly as JS does
(month overflow rolls the year; day overflow rolls into following months). -/
def jsTimeDays (y m0 d : Int) : Int :=
  daysFromCivil (y + m0 / 12) (m0 % 12 + 1) 1 + (d - 1)

/-- The period tokens offered by `FilterHandler.handleFilterByDueDate`. -/
inductive Period where
  | today
  | week
  | month
deriving DecidableEq

/-- `today.setHours(0,0,0,0)` in `FilterHandler.handleFilterByDueDate`:
midnight of the current civil date `(y, m0, d)`, in epoch milliseconds. -/
def bucketStart (y m0 d : Int) : Int := msPerDay * jsTimeDays y m0 d

/-- The `endDate` computed by the `switch` in
`FilterHandler.handleFilterByDueDate`: `setDate(getDate()+1)` for today,
`setDate(getDate()+7)` for week, `setMonth(getMonth()+1)` for month. -/
def bucketStop (p : Period) (y m0 d : Int) : Int :=
  msPerDay *
    (match p with
     | Period.today => jsTimeDays y m0 (d + 1)
     | Period.week => jsTimeDays y m0 (d + 7)
     | Period.month => jsTimeDays y (m0 + 1) d)

/-- The width of each due-date bucket, in days. -/
def bucketDelta (p : Period) (y m0 : Int) : Int :=
  match p with
  | Period.today => 1
  | Period.week => 7
  | Period.month => daysInMonth y (m0 + 1)

/-- `FilterHandler.handleFilterByDueDate`: compute today at midnight and the
period end date, then delegate to the storage range query. -/
def handleFilterByDueDate (p : Period) (y m0 d : Int) (store : List Task) :
    List Task :=
  findByDueDateRange (bucketStart y m0 d) (bucketStop p y m0 d) store

/-- Adding `k` to the day-of-month field shifts the JS time by `k` days:
`setDate(getDate() + k)` is plain day arithmetic. -/
theorem jsTimeDays_add (y m0 d k : Int) :
    jsTimeDays y m0 (d + k) = jsTimeDays y m0 d + k := by
  simp only [jsTimeDays]
  ring

/-- Advancing the (0-based) month field of a JS date by one shifts its time by
exactly the length of the current calendar month, whatever the day-of-month
overflow does. -/
theorem jsTimeDays_succMonth (y m0 : Int) (h0 : 0 ≤ m0) (h1 : m0 < 12) (d : Int) :
    jsTimeDays y (m0 + 1) d = jsTimeDays y m0 d + daysInMonth y (m0 + 1) := by
  interval_cases m0 <;>
    simp only [jsTimeDays, daysFromCivil, daysInMonth, isLeapYear] <;>
    norm_num <;>
    omega

/-- Every calendar month is 28 to 31 days long. -/
theorem daysInMonth_bounds (y m : Int) :
    28 ≤ daysInMonth y m ∧ daysInMonth y m ≤ 31 := by
  unfold daysInMonth
  split_ifs <;> norm_num

/-- The due-date comparator is transitive. -/
theorem dueDateCmp_trans (a b c : Task) :
    decide (a.dueDate ≤ b.dueDate) → decide (b.dueDate ≤ c.dueDate) →
      decide (a.dueDate ≤ c.dueDate) := by
  simp only [decide_eq_true_eq]
  omega

/-- The due-date comparator is total. -/
theorem dueDateCmp_total (a b : Task) :
    decide (a.dueDate ≤ b.dueDate) || decide (b.dueDate ≤ a.dueDate) := by
  simp only [Bool.or_eq_true, decide_eq_true_eq]
  omega

/-- Claim C1: for every task collection and dates `start`, `end`,
`findByDueDateRange(start, end)` returns exactly the tasks whose due date `d`
satisfies `start ≤ d < end`, in ascending due-date order; a task due exactly
at `start` is included and one due exactly at `end` is excluded. -/
theorem findByDueDateRange_halfOpen_sorted (start stop : Int) (store : List Task) :
    (findByDueDateRange start stop store).Perm
        (store.filter (fun t => decide (start ≤ t.dueDate) && decide (t.dueDate < stop)))
    ∧ (findByDueDateRange start stop store).Pairwise
        (fun a b => a.dueDate ≤ b.dueDate)
    ∧ ∀ t : Task, t ∈ findByDueDateRange start stop store ↔
        t ∈ store ∧ start ≤ t.dueDate ∧ t.dueDate < stop := by
  refine ⟨List.mergeSort_perm _ _, ?_, ?_⟩
  · exact (List.sorted_mergeSort dueDateCmp_trans dueDateCmp_total _).imp
      (fun h => of_decide_eq_true h)
  · intro t
    rw [findByDueDateRange, List.mem_mergeSort, List.mem_filter]
    simp [Bool.and_eq_true, decide_eq_true_eq, and_assoc]

/-- Claim C7: each period token queries the half-open range
`[todayMidnight, todayMidnight + delta)` with `delta` one day for today, seven
days for week, and one calendar month for month; the month bucket advances the
month field directly, so its width is the current month length, between 28 and
31 days. -/
theorem dueDate_bucket_ranges (p : Period) (y m0 d : Int) (store : List Task)
    (h0 : 0 ≤ m0) (h1 : m0 < 12) :
    handleFilterByDueDate p y m0 d store
        = findByDueDateRange (bucketStart y m0 d) (bucketStop p y m0 d) store
    ∧ bucketStop p y m0 d = bucketStart y m0 d + msPerDay * bucketDelta p y m0
    ∧ bucketDelta Period.today y m0 = 1
    ∧ bucketDelta Period.week y m0 = 7
    ∧ bucketDelta Period.month y m0 = daysInMonth y (m0 + 1)
    ∧ 28 ≤ daysInMonth y (m0 + 1) ∧ daysInMonth y (m0 + 1) ≤ 31 := by
  refine ⟨rfl, ?_, rfl, rfl, rfl, (daysInMonth_bounds y (m0 + 1)).1,
    (daysInMonth_bounds y (m0 + 1)).2⟩
  cases p with
  | today =>
      simp only [bucketStop, bucketStart, bucketDelta, jsTimeDays_add]
      ring
  | week =>
      simp only [bucketStop, bucketStart, bucketDelta, jsTimeDays_add]
      ring
  | month =>
      simp only [bucketStop, bucketStart, bucketDelta,
        jsTimeDays_succMonth y m0 h0 h1 d]
      ring

/-- Witness for claim C7 at a concrete input: January 2025 (month 0), day 31,
the month bucket. -/
theorem dueDate_bucket_ranges_witness :
    ((0 : Int) ≤ 0 ∧ (0 : Int) < 12)
    ∧ (handleFilterByDueDate Period.month 2025 0 31 []
          = findByDueDateRange (bucketStart 2025 0 31) (bucketStop Period.month 2025 0 31) []
        ∧ bucketStop Period.month 2025 0 31
            = bucketStart 2025 0 31 + msPerDay * bucketDelta Period.month 2025 0
        ∧ bucketDelta Period.today 2025 0 = 1
        ∧ bucketDelta Period.week 2025 0 = 7
        ∧ bucketDelta Period.month 2025 0 = daysInMonth 2025 (0 + 1)
        ∧ 28 ≤ daysInMonth 2025 (0 + 1) ∧ daysInMonth 2025 (0 + 1) ≤ 31) :=
  ⟨⟨by decide, by decide⟩,
    dueDate_bucket_ranges Period.month 2025 0 31 [] (by decide) (by decide)⟩

/-- Claim C2: the empty search term returns the full task set unmodified, and
any non-empty query of length 1 (below the minimum match length of 2) also
returns the unfiltered full set — for every choice of fuzzy matcher. -/
theorem search_shortQuery_full (matcher : String → Task → Bool) (store : List Task) :
    filterTasks matcher "" store = store
    ∧ ∀ q : String, q.length = 1 → filterTasks matcher q store = store := by
  constructor
  · simp [filterTasks]
  · intro q hq
    have hne : q ≠ "" := by
      intro h
      rw [h] at hq
      simp at hq
    simp [filterTasks, hne, fuseSearch, minMatchCharLength, hq]

/-- Witness for claim C2 at a concrete input: the one-letter query "b" on a
one-task store. -/
theorem search_shortQuery_full_witness :
    "b".length = 1
    ∧ filterTasks (fun _ _ => false) "" [mkTask "1" "Buy milk" "Home" Priority.low 0]
        = [mkTask "1" "Buy milk" "Home" Priority.low 0]
    ∧ filterTasks (fun _ _ => false) "b" [mkTask "1" "Buy milk" "Home" Priority.low 0]
        = [mkTask "1" "Buy milk" "Home" Priority.low 0] :=
  ⟨by decide,
   (search_shortQuery_full (fun _ _ => false) _).1,
   (search_shortQuery_full (fun _ _ => false) _).2 "b" (by decide)⟩

/-- Claim C5: `remove(id)` reports `true` exactly when some stored task bears
the id, reports `false` as a normal value otherwise (it is a total function —
no error path exists), and a repeated removal of the same id reports
`false`. -/
theorem removeTask_idempotent_false (id : String) (store : List Task) :
    ((removeTask id store).1 = true ↔ ∃ t ∈ store, t.id = id)
    ∧ (removeTask id (removeTask id store).2).1 = false := by
  constructor
  · simp only [removeTask, decide_eq_true_eq]
    constructor
    · intro hne
      by_contra hno
      push_neg at hno
      have hself : store.filter (fun t => t.id != id) = store :=
        List.filter_eq_self.mpr (by
          intro a ha
          simpa [bne_iff_ne] using hno a ha)
      rw [hself] at hne
      exact hne rfl
    · rintro ⟨t, ht, hid⟩ hlen
      have hall := List.filter_eq_self.mp
        (List.Sublist.eq_of_length (List.filter_sublist store) hlen)
      have := hall t ht
      simp only [bne_iff_ne, ne_eq, decide_eq_true_eq] at this
      exact this hid
  · simp only [removeTask]
    have hself : (store.filter (fun t => t.id != id)).filter (fun t => t.id != id)
        = store.filter (fun t => t.id != id) :=
      List.filter_eq_self.mpr (fun a ha => (List.mem_filter.mp ha).2)
    simp [hself]

/-- Membership in the drained JS set: a value is kept exactly when it occurs
in the remaining input and was not already emitted. -/
theorem mem_jsSetFold (c : String) :
    ∀ (l seen : List String), c ∈ jsSetFold seen l ↔ c ∈ l ∧ c ∉ seen := by
  intro l
  induction l with
  | nil =>
      intro seen
      simp [jsSetFold]
  | cons x xs ih =>
      intro seen
      simp only [jsSetFold]
      by_cases hx : x ∈ seen
      · rw [if_pos hx, ih seen]
        simp only [List.mem_cons]
        constructor
        · rintro ⟨h1, h2⟩
          exact ⟨Or.inr h1, h2⟩
        · rintro ⟨h1 | h1, h2⟩
          · exact absurd (h1 ▸ hx) h2
          · exact ⟨h1, h2⟩
      · rw [if_neg hx]
        simp only [List.mem_cons, ih (x :: seen), List.mem_cons]
        constructor
        · rintro (rfl | ⟨h1, h2⟩)
          · exact ⟨Or.inl rfl, hx⟩
          · exact ⟨Or.inr h1, fun hs => h2 (Or.inr hs)⟩
        · rintro ⟨rfl | h1, h2⟩
          · exact Or.inl rfl
          · by_cases hcx : c = x
            · exact Or.inl hcx
            · exact Or.inr ⟨h1, fun hs => hs.elim hcx h2⟩

/-- The drained JS set never repeats a value. -/
theorem nodup_jsSetFold : ∀ (l seen : List String), (jsSetFold seen l).Nodup := by
  intro l
  induction l with
  | nil =>
      intro seen
      simp [jsSetFold]
  | cons x xs ih =>
      intro seen
      simp only [jsSetFold]
      by_cases hx : x ∈ seen
      · rw [if_pos hx]
        exact ih seen
      · rw [if_neg hx]
        refine List.nodup_cons.mpr ⟨?_, ih (x :: seen)⟩
        rw [mem_jsSetFold]
        rintro ⟨-, hmem⟩
        exact hmem (List.mem_cons_self x seen)

/-- Claim C9: `getUniqueCategories()` lists each category value occurring on
some task exactly once (no duplicates), and lists nothing that is not the
category of a stored task. -/
theorem uniqueCategories_distinct (store : List Task) :
    (getUniqueCategories store).Nodup
    ∧ ∀ c : String, c ∈ getUniqueCategories store ↔ ∃ t ∈ store, t.category = c := by
  refine ⟨nodup_jsSetFold _ [], ?_⟩
  intro c
  rw [getUniqueCategories, mem_jsSetFold]
  simp [List.mem_map]

/-- Claim C10: `getTasksSortedByDueDate` returns a permutation of the stored
tasks and leaves the stored list itself unchanged — the source sorts a spread
copy, never the field. -/
theorem sorted_isPermutation_frame (ascending : Bool) (store : List Task) :
    (getTasksSortedByDueDateRun ascending store).1.Perm store
    ∧ (getTasksSortedByDueDateRun ascending store).2 = store :=
  ⟨List.mergeSort_perm store (dueDateLE ascending), rfl⟩

/-- Merging the patch `{priority: p}` into a task changes its priority field
and nothing else. -/
theorem applyPatch_priority (p : Priority) (t : Task) :
    applyPatch (priorityPatch p) t = { t with priority := p } := rfl

/-- Claim C3: updating a stored task with a patch containing only `priority`
rewrites the store so that the matched task changes exactly its `priority` and
`updatedAt` fields while every other stored task is untouched, and returns the
patched task. -/
theorem updateTask_priority_frame (now : Int) (id : String) (p : Priority)
    (store : List Task) (t : Task)
    (hN : (store.map Task.id).Nodup)
    (ht : findById id store = some t) :
    (updateTask now id (priorityPatch p) store).2
        = store.map (fun u =>
            if u.id = id then { u with priority := p, updatedAt := now } else u)
    ∧ (updateTask now id (priorityPatch p) store).1
        = some { t with priority := p, updatedAt := now } := by
  have htid : t.id = id := by simpa using List.find?_some ht
  have htmem : t ∈ store := List.mem_of_find?_eq_some ht
  constructor
  · have hany : store.any (fun u => u.id == ({ t with priority := p } : Task).id) = true :=
      List.any_eq_true.mpr ⟨t, htmem, by simp⟩
    simp only [updateTask, ht, applyPatch_priority, save, hany, if_true]
    apply List.map_congr_left
    intro u hu
    by_cases hid : u.id = id
    · have hut : u = t :=
        List.inj_on_of_nodup_map hN hu htmem (by rw [hid, htid])
      subst hut
      simp [htid]
    · have h1 : (u.id == ({ t with priority := p } : Task).id) = false := by
        show (u.id == t.id) = false
        rw [htid]
        exact beq_eq_false_iff_ne.mpr hid
      simp [h1, hid]
  · simp only [updateTask, ht, applyPatch_priority]

/-- Witness for claim C3 on a concrete two-task store. -/
theorem updateTask_priority_frame_witness :
    (([mkTask "1" "a" "home" Priority.low 0,
       mkTask "2" "b" "work" Priority.medium 5].map Task.id).Nodup
      ∧ findById "1" [mkTask "1" "a" "home" Priority.low 0,
          mkTask "2" "b" "work" Priority.medium 5]
          = some (mkTask "1" "a" "home" Priority.low 0))
    ∧ ((updateTask 99 "1" (priorityPatch Priority.high)
          [mkTask "1" "a" "home" Priority.low 0,
           mkTask "2" "b" "work" Priority.medium 5]).2
        = [mkTask "1" "a" "home" Priority.low 0,
           mkTask "2" "b" "work" Priority.medium 5].map (fun u =>
            if u.id = "1" then { u with priority := Priority.high, updatedAt := 99 } else u)
      ∧ (updateTask 99 "1" (priorityPatch Priority.high)
          [mkTask "1" "a" "home" Priority.low 0,
           mkTask "2" "b" "work" Priority.medium 5]).1
        = some { mkTask "1" "a" "home" Priority.low 0 with
            priority := Priority.high, updatedAt := 99 }) :=
  ⟨⟨by decide, by decide⟩,
   updateTask_priority_frame 99 "1" Priority.high _ _ (by decide) (by decide)⟩

/-- Replacing every id-matched task by a fixed task `nt` that still bears the
id keeps `find?` pointed at `nt`, provided the id was present. -/
theorem find?_map_replaceId (id : String) (w nt : Task) (hw : w.id = id)
    (hnt : nt.id = id) :
    ∀ store : List Task, (findById id store).isSome = true →
      (store.map (fun u => if u.id == w.id then nt else u)).find?
          (fun u => u.id == id) = some nt := by
  intro store
  induction store with
  | nil =>
      intro h
      simp [findById] at h
  | cons x xs ih =>
      intro h
      by_cases hx : x.id = id
      · have h1 : (x.id == w.id) = true := by rw [hw, hx]; simp
        have h2 : (nt.id == id) = true := by rw [hnt]; simp
        have hite : (if (x.id == w.id) = true then nt else x) = nt := by
          rw [h1]
          simp
        rw [List.map_cons, hite]
        exact List.find?_cons_of_pos _ h2
      · have h1 : (x.id == w.id) = false := by
          rw [hw]
          exact beq_eq_false_iff_ne.mpr hx
        have h3 : (x.id == id) = false := beq_eq_false_iff_ne.mpr hx
        have hite : (if (x.id == w.id) = true then nt else x) = x := by
          rw [h1]
          simp
        have h' : (findById id xs).isSome = true := by
          simp only [findById] at h
          rw [List.find?_cons_of_neg _ (by simp [h3])] at h
          exact h
        rw [List.map_cons, hite, List.find?_cons_of_neg _ (by simp [h3])]
        exact ih h'

/-- Saving a task whose id is present re-points `findById` at the saved copy,
with its `updatedAt` refreshed. -/
theorem findById_save (now : Int) (id : String) (w : Task) (hw : w.id = id)
    (store : List Task) (h : (findById id store).isSome = true) :
    findById id (save now w store) = some { w with updatedAt := now } := by
  obtain ⟨t, ht⟩ := Option.isSome_iff_exists.mp h
  have htid : t.id = id := by simpa using List.find?_some ht
  have hany : store.any (fun u => u.id == w.id) = true :=
    List.any_eq_true.mpr ⟨t, List.mem_of_find?_eq_some ht, by simp [hw, htid]⟩
  rw [findById, save, if_pos hany]
  exact find?_map_replaceId id w { w with updatedAt := now } hw (by simpa using hw)
    store h

/-- Claim C4: on a stored id, `markComplete` succeeds twice in a row, and the
task found under that id has `isCompleted = true` after each of the two
calls. -/
theorem markComplete_idempotent (now now2 : Int) (id : String) (store : List Task)
    (h : (findById id store).isSome = true) :
    (markTaskAsComplete now id store).1 = true
    ∧ (markTaskAsComplete now2 id (markTaskAsComplete now id store).2).1 = true
    ∧ (∃ u, findById id (markTaskAsComplete now id store).2 = some u
        ∧ u.isCompleted = true)
    ∧ (∃ u, findById id
          (markTaskAsComplete now2 id (markTaskAsComplete now id store).2).2 = some u
        ∧ u.isCompleted = true) := by
  obtain ⟨t, ht⟩ := Option.isSome_iff_exists.mp h
  have htid : t.id = id := by simpa using List.find?_some ht
  have e1 : markTaskAsComplete now id store
      = (true, save now { t with isCompleted := true } store) := by
    simp [markTaskAsComplete, ht]
  have hf1 : findById id (save now { t with isCompleted := true } store)
      = some { t with isCompleted := true, updatedAt := now } :=
    findById_save now id { t with isCompleted := true } htid store h
  have h2 : (findById id (save now { t with isCompleted := true } store)).isSome
      = true := by
    rw [hf1]
    rfl
  have e2 : markTaskAsComplete now2 id (save now { t with isCompleted := true } store)
      = (true, save now2 { t with isCompleted := true, updatedAt := now }
          (save now { t with isCompleted := true } store)) := by
    simp [markTaskAsComplete, hf1]
  have hf2 : findById id
      (save now2 { t with isCompleted := true, updatedAt := now }
        (save now { t with isCompleted := true } store))
      = some { t with isCompleted := true, updatedAt := now2 } :=
    findById_save now2 id { t with isCompleted := true, updatedAt := now } htid
      (save now { t with isCompleted := true } store) h2
  refine ⟨by rw [e1], by rw [e1, e2], ?_, ?_⟩
  · exact ⟨{ t with isCompleted := true, updatedAt := now }, by rw [e1]; exact hf1, rfl⟩
  · exact ⟨{ t with isCompleted := true, updatedAt := now2 },
      by rw [e1, e2]; exact hf2, rfl⟩

/-- Witness for claim C4 on a concrete one-task store. -/
theorem markComplete_idempotent_witness :
    (findById "1" [mkTask "1" "a" "home" Priority.low 0]).isSome = true
    ∧ ((markTaskAsComplete 5 "1" [mkTask "1" "a" "home" Priority.low 0]).1 = true
      ∧ (markTaskAsComplete 9 "1"
          (markTaskAsComplete 5 "1" [mkTask "1" "a" "home" Priority.low 0]).2).1 = true
      ∧ (∃ u, findById "1"
            (markTaskAsComplete 5 "1" [mkTask "1" "a" "home" Priority.low 0]).2 = some u
          ∧ u.isCompleted = true)
      ∧ (∃ u, findById "1"
            (markTaskAsComplete 9 "1"
              (markTaskAsComplete 5 "1" [mkTask "1" "a" "home" Priority.low 0]).2).2
            = some u
          ∧ u.isCompleted = true)) :=
  ⟨by decide, markComplete_idempotent 5 9 "1" _ (by decide)⟩

/-- The ascending comparator accepts exactly the non-decreasing pairs. -/
theorem dueDateLE_true_iff (a b : Task) :
    dueDateLE true a b = true ↔ a.dueDate ≤ b.dueDate := by
  simp [dueDateLE]

/-- The descending comparator accepts exactly the non-increasing pairs. -/
theorem dueDateLE_false_iff (a b : Task) :
    dueDateLE false a b = true ↔ b.dueDate ≤ a.dueDate := by
  simp [dueDateLE]

/-- Claim C6: with pairwise-distinct due dates, the ascending due-date sort
reversed equals the descending due-date sort. -/
theorem sort_roundtrip (store : List Task)
    (h : store.Pairwise (fun a b => a.dueDate ≠ b.dueDate)) :
    (getTasksSortedByDueDate true store).reverse
      = getTasksSortedByDueDate false store := by
  have permAsc : (store.mergeSort (dueDateLE true)).Perm store :=
    List.mergeSort_perm store (dueDateLE true)
  have permDesc : (store.mergeSort (dueDateLE false)).Perm store :=
    List.mergeSort_perm store (dueDateLE false)
  have sortedAsc : (store.mergeSort (dueDateLE true)).Pairwise
      (fun a b => dueDateLE true a b = true) :=
    List.sorted_mergeSort
      (by
        intro a b c hab hbc
        rw [dueDateLE_true_iff] at hab hbc ⊢
        omega)
      (by
        intro a b
        rw [Bool.or_eq_true, dueDateLE_true_iff, dueDateLE_true_iff]
        omega)
      store
  have sortedDesc : (store.mergeSort (dueDateLE false)).Pairwise
      (fun a b => dueDateLE false a b = true) :=
    List.sorted_mergeSort
      (by
        intro a b c hab hbc
        rw [dueDateLE_false_iff] at hab hbc ⊢
        omega)
      (by
        intro a b
        rw [Bool.or_eq_true, dueDateLE_false_iff, dueDateLE_false_iff]
        omega)
      store
  have neAsc : (store.mergeSort (dueDateLE true)).Pairwise
      (fun a b => a.dueDate ≠ b.dueDate) :=
    (permAsc.pairwise_iff (fun hab => Ne.symm hab)).mpr h
  have neDesc : (store.mergeSort (dueDateLE false)).Pairwise
      (fun a b => a.dueDate ≠ b.dueDate) :=
    (permDesc.pairwise_iff (fun hab => Ne.symm hab)).mpr h
  have strictAsc : (store.mergeSort (dueDateLE true)).Pairwise
      (fun a b => a.dueDate < b.dueDate) :=
    (sortedAsc.and neAsc).imp (by
      intro a b hab
      obtain ⟨h1, h2⟩ := hab
      rw [dueDateLE_true_iff] at h1
      omega)
  have strictDesc : (store.mergeSort (dueDateLE false)).Pairwise
      (fun a b => b.dueDate < a.dueDate) :=
    (sortedDesc.and neDesc).imp (by
      intro a b hab
      obtain ⟨h1, h2⟩ := hab
      rw [dueDateLE_false_iff] at h1
      omega)
  have strictRev : (store.mergeSort (dueDateLE true)).reverse.Pairwise
      (fun a b => b.dueDate < a.dueDate) :=
    List.pairwise_reverse.mpr strictAsc
  have permRev : (store.mergeSort (dueDateLE true)).reverse.Perm
      (store.mergeSort (dueDateLE false)) :=
    ((store.mergeSort (dueDateLE true)).reverse_perm.trans permAsc).trans permDesc.symm
  haveI : IsAntisymm Task (fun a b => b.dueDate < a.dueDate) :=
    ⟨fun a b h1 h2 => False.elim (by omega)⟩
  exact List.eq_of_perm_of_sorted permRev strictRev strictDesc

/-- Witness for claim C6 on a concrete two-task store with distinct due
dates. -/
theorem sort_roundtrip_witness :
    ([mkTask "1" "a" "home" Priority.low 5,
      mkTask "2" "b" "work" Priority.medium 3].Pairwise
        (fun a b => a.dueDate ≠ b.dueDate))
    ∧ (getTasksSortedByDueDate true
        [mkTask "1" "a" "home" Priority.low 5,
         mkTask "2" "b" "work" Priority.medium 3]).reverse
      = getTasksSortedByDueDate false
        [mkTask "1" "a" "home" Priority.low 5,
         mkTask "2" "b" "work" Priority.medium 3] :=
  ⟨by decide, sort_roundtrip _ (by decide)⟩

/-- Claim C8: the persisted `findByCategory` is case-sensitive while the
in-memory `getTasksByCategory` is case-insensitive; they agree whenever every
stored category that matches the query up to case matches it exactly, and they
disagree on a query differing from a stored category only in letter case. -/
theorem category_case_refinement (store : List Task) (q : String)
    (h : ∀ t ∈ store, toLowerStr t.category = toLowerStr q → t.category = q) :
    findByCategory q store = getTasksByCategory q store
    ∧ findByCategory "work" [mkTask "1" "n" "Work" Priority.low 0]
        ≠ getTasksByCategory "work" [mkTask "1" "n" "Work" Priority.low 0] := by
  constructor
  · unfold findByCategory getTasksByCategory
    apply List.filter_congr
    intro t ht
    by_cases hc : t.category = q
    · have h1 : (t.category == q) = true := beq_iff_eq.mpr hc
      have h2 : (toLowerStr t.category == toLowerStr q) = true :=
        beq_iff_eq.mpr (congrArg toLowerStr hc)
      rw [h1, h2]
    · have hlow : toLowerStr t.category ≠ toLowerStr q := fun hl => hc (h t ht hl)
      have h1 : (t.category == q) = false := beq_eq_false_iff_ne.mpr hc
      have h2 : (toLowerStr t.category == toLowerStr q) = false :=
        beq_eq_false_iff_ne.mpr hlow
      rw [h1, h2]
  · decide

/-- Witness for claim C8: a store whose single category is spelled exactly
like the query. -/
theorem category_case_refinement_witness :
    (∀ t ∈ [mkTask "1" "n" "Work" Priority.low 0],
        toLowerStr t.category = toLowerStr "Work" → t.category = "Work")
    ∧ (findByCategory "Work" [mkTask "1" "n" "Work" Priority.low 0]
          = getTasksByCategory "Work" [mkTask "1" "n" "Work" Priority.low 0]
        ∧ findByCategory "work" [mkTask "1" "n" "Work" Priority.low 0]
            ≠ getTasksByCategory "work" [mkTask "1" "n" "Work" Priority.low 0]) :=
  ⟨by decide, category_case_refinement _ "Work" (by decide)⟩

end TaskManager
